import Mathlib

/-!
Verification of the ddmq broker (src/ddmq/broker.py, src/ddmq/message.py)
against its natural-language specification.

Shallow embedding conventions:
* The filesystem layer is modelled as explicit state: per-queue association
  lists of (filename, message-content) pairs stand for the queue directory
  and its work/ subdirectory.  Waiting filenames are kept as genuine
  character lists (the source builds them with str.format and sorts them
  with Python's lexicographic string order); a leased file is keyed by the
  pair (expiry, original waiting name), standing for the name
  "{expiry}.{original}" that os.rename creates.
* Python's int is Int, str is String or List Char, None/True/int scalars in
  JSON and YAML values are the JVal inductive.  Python dict semantics
  (replace value in place for an existing key, append new keys) are the
  alist* functions.
* uuid4 generation is modelled by an id supply carried in the broker state;
  int(time.time()) is an explicit `now` parameter.
* Exceptions (KeyError from the settings cache, ValueError for a negative
  priority, FileNotFoundError from os.remove) are the Err inductive in an
  Except monad.
* Python's sorted() is a stable sort by the string order; it is embedded as
  a structurally recursive stable insertion sort (extensionally equal to
  any stable sort for this total preorder).
The model covers an existing, initiated root and existing queues (the
operations' failure paths for a missing root or queue directory are not
exercised by the claims).
-/

namespace Ddmq

/-- JSON/YAML scalar values as they occur in ddmq message and config files. -/
inductive JVal where
  | null : JVal
  | bool (b : Bool) : JVal
  | int (i : Int) : JVal
  | str (s : String) : JVal
deriving DecidableEq

/-- Python dict lookup (first matching key). -/
def alistGet {κ β : Type} [DecidableEq κ] : List (κ × β) → κ → Option β
  | [], _ => none
  | e :: es, k => if e.1 = k then some e.2 else alistGet es k

/-- Python dict assignment: replace the value of an existing key in place,
append a new key at the end (insertion order is preserved). -/
def alistSet {κ β : Type} [DecidableEq κ] : List (κ × β) → κ → β → List (κ × β)
  | [], k, v => [(k, v)]
  | e :: es, k, v => if e.1 = k then (k, v) :: es else e :: alistSet es k v

/-- Python dict.update: apply every binding of the package in order. -/
def alistUpdate {κ β : Type} [DecidableEq κ] (d : List (κ × β)) (pkg : List (κ × β)) :
    List (κ × β) :=
  pkg.foldl (fun acc e => alistSet acc e.1 e.2) d

/-- Removal of a key (os.remove of the file with that name). -/
def alistRemove {κ β : Type} [DecidableEq κ] : List (κ × β) → κ → List (κ × β)
  | [], _ => []
  | e :: es, k => if e.1 = k then alistRemove es k else e :: alistRemove es k

/-- The keys of an association list. -/
def alistKeys {κ β : Type} (d : List (κ × β)) : List κ := d.map Prod.fst

/-- A YAML/JSON mapping (config file content, effective settings,
message object dictionary). -/
abbrev Dict : Type := List (String × JVal)

/-- broker.default_settings (broker.py line 114), in source insertion order. -/
def defaultSettings : Dict :=
  [("message_timeout", JVal.int 600), ("cleaned", JVal.int 0),
   ("priority", JVal.int 999), ("requeue", JVal.bool true),
   ("requeue_prio", JVal.int 0)]

/-- Embedding of the source's d[k] reads of settings values
(message_timeout, cleaned, priority, requeue_prio).  Every such read in
broker.py hits a key that the defaults dictionary populates with an int, so
the fallback 0 is never reached on a merged settings dictionary. -/
def getInt (d : Dict) (k : String) : Int :=
  match alistGet d k with
  | some (JVal.int i) => i
  | _ => 0

/-- The requeue field of a message: Python lets it be a bool or an int
(an int is a custom requeue priority). -/
inductive RQVal where
  | bool (b : Bool) : RQVal
  | int (i : Int) : RQVal
deriving DecidableEq

/-- Python truthiness of the requeue field. -/
def RQVal.truthy : RQVal → Bool
  | .bool b => b
  | .int i => i != 0

/-- A message record with the fields of message.message as the broker
creates them (message.py line 30, broker.py publish). -/
structure Msg where
  message : String
  queue : String
  priority : Int
  queue_number : Nat
  id : String
  filename : List Char
  timeout : Option Int
  requeue : RQVal
  requeue_counter : Int
  requeue_limit : Option Int
deriving DecidableEq

/-- Digit recursion for the decimal representation, structurally recursive
on a fuel argument so that it reduces inside the kernel; any fuel above
the value itself yields the digits. -/
def decStrAux : Nat → Nat → List Char
  | 0, _ => []
  | fuel + 1, n =>
      if n < 10 then [Nat.digitChar n]
      else decStrAux fuel (n / 10) ++ [Nat.digitChar (n % 10)]

/-- Unpadded decimal representation of a natural number, as Python's
str.format produces it (most significant digit first). -/
def decStr (n : Nat) : List Char := decStrAux (n + 1) n

/-- Python str() of an int (a minus sign followed by the digits when
negative). -/
def intStr (i : Int) : List Char :=
  if i < 0 then '-' :: decStr i.natAbs else decStr i.toNat

/-- Numeric value of a decimal digit character. -/
def digitVal (c : Char) : Nat := c.toNat - '0'.toNat

/-- Embedding of Python int(s) for strings of decimal digits. -/
def parseNat (s : List Char) : Nat := s.foldl (fun a c => 10 * a + digitVal c) 0

/-- Embedding of str.split on the dot character. -/
def splitDots : List Char → List (List Char)
  | [] => [[]]
  | c :: cs =>
      if c = '.' then [] :: splitDots cs
      else
        match splitDots cs with
        | [] => [[c]]
        | f :: rest => (c :: f) :: rest

/-- The waiting filename "{priority}.{queue_number}.ddmq{id}" built by
publish (broker.py line 794). -/
def waitingName (p : Int) (qn : Nat) (idv : String) : List Char :=
  intStr p ++ ('.' :: (decStr qn ++ ('.' :: ('d' :: 'd' :: 'm' :: 'q' :: idv.data))))

/-- Python string comparison s < t: lexicographic by code point, a proper
prefix is smaller. -/
def pyStrLt : List Char → List Char → Bool
  | [], [] => false
  | [], _ :: _ => true
  | _ :: _, [] => false
  | a :: as, b :: bs => if a < b then true else if b < a then false else pyStrLt as bs

/-- Python string comparison s <= t (the negation of t < s for this total
order). -/
def pyLe (s t : List Char) : Bool := !(pyStrLt t s)

/-- Stable insertion of a string into a sorted list of strings: x is placed
before the first element it does not exceed. -/
def pyInsert (x : List Char) : List (List Char) → List (List Char)
  | [] => [x]
  | y :: ys => if pyLe x y then x :: y :: ys else y :: pyInsert x ys

/-- Embedding of Python sorted() on a list of strings: the stable sort by
the lexicographic order (any stable sort yields this same list). -/
def pySorted : List (List Char) → List (List Char)
  | [] => []
  | x :: xs => pyInsert x (pySorted xs)

/-- The errors the modelled operations can raise: KeyError from the
settings-cache read in clean, ValueError for a negative priority in
publish, FileNotFoundError from os.remove in requeue_message. -/
inductive Err where
  | keyError : Err
  | invalidPriority : Err
  | fileNotFound : Err
deriving DecidableEq

/-- The dynamic shape of broker.consume's return value: Python returns
None, or a bare message record, or a list of records. -/
inductive ConsumeRet where
  | nothing : ConsumeRet
  | single (m : Msg) : ConsumeRet
  | items (ms : List Msg) : ConsumeRet
deriving DecidableEq

/-- The state of one broker instance over an initiated root.
global is broker.global_settings (defaults merged with the root config,
computed at construction); conf Q is the content of root/Q/ddmq.yaml;
cache is broker.queue_settings; waiting Q and work Q are the message files
of root/Q and root/Q/work; ids is the uuid4 supply; queueNames is the
list_queues result (the valid queue subdirectories, in sorted order). -/
structure Broker where
  globalSettings : Dict
  conf : String → Dict
  cache : List (String × Dict)
  waiting : String → List (List Char × Msg)
  work : String → List ((Int × List Char) × Msg)
  ids : List String
  queueNames : List String

/-- Pointwise update of a per-queue map (a write into one directory). -/
def fnSet {β : Type} (f : String → β) (k : String) (v : β) : String → β :=
  fun x => if x = k then v else f x

/-- uuid.uuid4().hex, modelled by popping the id supply. -/
def freshId (st : Broker) : String × Broker :=
  (st.ids.headD "", { st with ids := st.ids.tail })

/-- broker.get_settings (broker.py line 210): the cached settings when
present, otherwise the queue config merged over the global settings, which
is then cached. -/
def get_settings (Q : String) (st : Broker) : Dict × Broker :=
  match alistGet st.cache Q with
  | some qs => (qs, st)
  | none =>
      let qs := alistUpdate st.globalSettings (st.conf Q)
      (qs, { st with cache := alistSet st.cache Q qs })

/-- broker.update_settings_file (broker.py line 238): load the config file,
apply the package, write the result back (write-temp + rename).  The
settings cache is not touched. -/
def update_settings_file (Q : String) (pkg : Dict) (st : Broker) : Broker :=
  { st with conf := fnSet st.conf Q (alistUpdate (st.conf Q) pkg) }

/-- broker.get_queue_number (broker.py line 671): one more than the largest
second dot-field among the waiting filenames (1 for an empty queue). -/
def get_queue_number (Q : String) (st : Broker) : Nat :=
  ((st.waiting Q).foldl
    (fun acc e => max acc (parseNat (((splitDots e.1).drop 1).headD []))) 0) + 1

/-- broker.publish with clean=False (broker.py line 738): resolve settings,
default a falsy priority to the queue's priority setting, reject a negative
one, let a truthy requeue_prio override requeue, then build the record,
allocate the queue number and id, and write the waiting file. -/
def publishCore (Q : String) (msg_text : String) (priority : Option Int)
    (requeue : RQVal) (requeue_prio : Option Int) (timeout : Option Int)
    (requeue_counter : Int) (requeue_limit : Option Int) (st : Broker) :
    Except Err (Msg × Broker) :=
  let s := get_settings Q st
  let qs := s.1
  let st := s.2
  let pE : Except Err Int :=
    match priority with
    | none => .ok (getInt qs "priority")
    | some i =>
        if i = 0 then .ok (getInt qs "priority")
        else if i < 0 then .error .invalidPriority
        else .ok i
  match pE with
  | .error e => .error e
  | .ok p =>
    let rq : RQVal :=
      match requeue_prio with
      | some rp => if rp ≠ 0 then RQVal.int rp else requeue
      | none => requeue
    let qn := get_queue_number Q st
    let f := freshId st
    let idv := f.1
    let st := f.2
    let fname := waitingName p qn idv
    let msg : Msg :=
      { message := msg_text, queue := Q, priority := p, queue_number := qn,
        id := idv, filename := Q.data ++ '/' :: fname, timeout := timeout,
        requeue := rq, requeue_counter := requeue_counter,
        requeue_limit := requeue_limit }
    .ok (msg, { st with waiting := fnSet st.waiting Q (alistSet (st.waiting Q) fname msg) })

/-- Python truthiness of msg.requeue_limit (None and 0 are falsy). -/
def limitFalsy : Option Int → Bool
  | none => true
  | some l => l == 0

/-- msg.requeue_counter < msg.requeue_limit (only evaluated when the limit
is truthy). -/
def underLimit (c : Int) : Option Int → Bool
  | none => false
  | some l => c < l

/-- One iteration of broker.clean's loop over the work-directory listing
(broker.py lines 301-335): an expired entry is requeued when its requeue
field is truthy and the requeue limit is not exhausted, then removed. -/
def cleanStep (Q : String) (now : Int) (qs : Dict)
    (acc : Except Err Broker) (e : (Int × List Char) × Msg) : Except Err Broker :=
  match acc with
  | .error er => .error er
  | .ok st =>
    let E := e.1.1
    let name := e.1.2
    let msg := e.2
    if E < now then
      let pubE : Except Err Broker :=
        if msg.requeue.truthy then
          let prio : Int :=
            match msg.requeue with
            | RQVal.int i => i
            | _ => getInt qs "requeue_prio"
          if limitFalsy msg.requeue_limit || underLimit msg.requeue_counter msg.requeue_limit then
            match publishCore msg.queue msg.message (some prio) msg.requeue
                none none (msg.requeue_counter + 1) msg.requeue_limit st with
            | .error er => .error er
            | .ok r => .ok r.2
          else .ok st
        else .ok st
      match pubE with
      | .error er => .error er
      | .ok st' =>
          .ok { st' with work := fnSet st'.work Q (alistRemove (st'.work Q) (E, name)) }
    else .ok st

/-- The working part of broker.clean: load the settings, walk the work
directory, persist the cleaned timestamp, report True. -/
def cleanBody (Q : String) (now : Int) (st : Broker) : Except Err (Bool × Broker) :=
  let s := get_settings Q st
  let qs := s.1
  let st := s.2
  let entries := st.work Q
  match entries.foldl (cleanStep Q now qs) (.ok st) with
  | .error e => .error e
  | .ok st' => .ok (true, update_settings_file Q [("cleaned", JVal.int now)] st')

/-- broker.clean (broker.py line 276).  Without force the throttle check
reads the settings-cache entry directly (KeyError when the queue's settings
were never loaded) and reports False when the cached cleaned timestamp is
at least now - 60. -/
def clean (Q : String) (force : Bool) (now : Int) (st : Broker) :
    Except Err (Bool × Broker) :=
  if force then cleanBody Q now st
  else
    match alistGet st.cache Q with
    | none => .error .keyError
    | some qs =>
        if ¬(getInt qs "cleaned" < now - 60) then .ok (false, st)
        else cleanBody Q now st

/-- The loop of broker.clean_all (broker.py line 342): clean every queue,
without force; an exception propagates. -/
def cleanAllGo (now : Int) : List String → Broker → Except Err Broker
  | [], st => .ok st
  | q :: qsn, st =>
      match clean q false now st with
      | .error e => .error e
      | .ok r => cleanAllGo now qsn r.2

/-- broker.clean_all. -/
def clean_all (now : Int) (st : Broker) : Except Err Broker :=
  cleanAllGo now st.queueNames st

/-- One iteration of broker.consume's loop (broker.py lines 847-873): read
the chosen file, compute the expiry from the message timeout (falsy means
the queue's message_timeout), rename the file into work/ with the expiry
prefixed, and report the record with its filename updated.  The file keeps
its original content; only the returned record carries the new name. -/
def consumeStep (Q : String) (now : Int) (qs : Dict)
    (acc : List Msg × Broker) (name : List Char) : List Msg × Broker :=
  let restored := acc.1
  let st := acc.2
  match alistGet (st.waiting Q) name with
  | none => (restored, st)
  | some msg =>
      let t : Int :=
        match msg.timeout with
        | some tv => if tv ≠ 0 then tv else getInt qs "message_timeout"
        | none => getInt qs "message_timeout"
      let expiry := now + t
      let msgr := { msg with filename := intStr expiry ++ '.' :: name }
      (restored ++ [msgr],
       { st with
          waiting := fnSet st.waiting Q (alistRemove (st.waiting Q) name),
          work := fnSet st.work Q (alistSet (st.work Q) (expiry, name) msg) })

/-- broker.consume (broker.py line 806): settings, optional cleaning pass,
a falsy n becomes 1, take the first n filenames in sorted order, lease each
one, and return None when nothing was read, else the list of records. -/
def consume (Q : String) (n : Nat) (doClean : Bool) (now : Int) (st : Broker) :
    Except Err (ConsumeRet × Broker) :=
  let s := get_settings Q st
  let qs := s.1
  let st := s.2
  let stE : Except Err Broker :=
    if doClean then
      match clean Q false now st with
      | .error e => .error e
      | .ok r => .ok r.2
    else .ok st
  match stE with
  | .error e => .error e
  | .ok st =>
    let nn := if n = 0 then 1 else n
    let chosen := (pySorted ((st.waiting Q).map Prod.fst)).take nn
    let r := chosen.foldl (consumeStep Q now qs) ([], st)
    .ok ((if r.1.isEmpty then ConsumeRet.nothing else ConsumeRet.items r.1), r.2)

/-- broker.requeue_message (broker.py line 580): read the message (from the
work file when not supplied), set the priority to the queue's requeue_prio
or to an integer requeue field, republish with the counter incremented (no
requeue-limit check), then remove the work file. -/
def requeue_message (Q : String) (f : Int × List Char) (msgArg : Option Msg)
    (st : Broker) : Except Err Broker :=
  let msgE : Except Err Msg :=
    match msgArg with
    | some m => .ok m
    | none =>
        match alistGet (st.work Q) f with
        | some m => .ok m
        | none => .error .fileNotFound
  match msgE with
  | .error e => .error e
  | .ok msg =>
    let s := get_settings msg.queue st
    let qs := s.1
    let st := s.2
    let prio : Int :=
      match msg.requeue with
      | RQVal.int i => i
      | _ => getInt qs "requeue_prio"
    match publishCore msg.queue msg.message (some prio) msg.requeue
        none none (msg.requeue_counter + 1) msg.requeue_limit st with
    | .error e => .error e
    | .ok r =>
        let st' := r.2
        if (alistGet (st'.work msg.queue) f).isSome then
          .ok { st' with work := fnSet st'.work msg.queue (alistRemove (st'.work msg.queue) f) }
        else .error .fileNotFound

/-- One iteration of broker.nack's loop (broker.py lines 906-935): a
missing file is skipped; requeue=True forces a requeue; requeue=None
requeues exactly when the message's own requeue field is truthy and
otherwise does nothing to the file; requeue=False removes the file.  Every
present file is appended to the returned list. -/
def nackStep (Q : String) (requeue : Option Bool)
    (acc : Except Err (List (Int × List Char) × Broker)) (f : Int × List Char) :
    Except Err (List (Int × List Char) × Broker) :=
  match acc with
  | .error e => .error e
  | .ok p =>
    let nacked := p.1
    let st := p.2
    match alistGet (st.work Q) f with
    | none => .ok (nacked, st)
    | some msg =>
      match requeue with
      | some true =>
          match requeue_message Q f none st with
          | .error e => .error e
          | .ok st' => .ok (nacked ++ [f], st')
      | none =>
          if msg.requeue.truthy then
            match requeue_message Q f (some msg) st with
            | .error e => .error e
            | .ok st' => .ok (nacked ++ [f], st')
          else .ok (nacked ++ [f], st)
      | some false =>
          .ok (nacked ++ [f], { st with work := fnSet st.work Q (alistRemove (st.work Q) f) })

/-- broker.nack (broker.py line 883).  The clean parameter of the source is
accepted and never used by the body; it is omitted here. -/
def nack (Q : String) (files : List (Int × List Char)) (requeue : Option Bool)
    (st : Broker) : Except Err (List (Int × List Char) × Broker) :=
  let s := get_settings Q st
  files.foldl (nackStep Q requeue) (.ok ([], s.2))

/-- One iteration of broker.ack's loop (broker.py lines 960-983). -/
def ackStep (Q : String) (requeue : Bool)
    (acc : Except Err (List (Int × List Char) × Broker)) (f : Int × List Char) :
    Except Err (List (Int × List Char) × Broker) :=
  match acc with
  | .error e => .error e
  | .ok p =>
    let acked := p.1
    let st := p.2
    match alistGet (st.work Q) f with
    | none => .ok (acked, st)
    | some _ =>
      if requeue then
        match requeue_message Q f none st with
        | .error e => .error e
        | .ok st' => .ok (acked ++ [f], st')
      else
        .ok (acked ++ [f], { st with work := fnSet st.work Q (alistRemove (st.work Q) f) })

/-- broker.ack (broker.py line 940); ack does not load settings and its
clean parameter is likewise unused by the body. -/
def ack (Q : String) (files : List (Int × List Char)) (requeue : Bool)
    (st : Broker) : Except Err (List (Int × List Char) × Broker) :=
  files.foldl (ackStep Q requeue) (.ok ([], st))

/-- broker.publish (broker.py line 738) with its opportunistic cleaning
pass: settings are loaded first, then clean (without force) when asked,
then the publishing steps. -/
def publish (Q : String) (msg_text : String) (priority : Option Int)
    (doClean : Bool) (requeue : RQVal) (requeue_prio : Option Int)
    (timeout : Option Int) (requeue_counter : Int) (requeue_limit : Option Int)
    (now : Int) (st : Broker) : Except Err (Msg × Broker) :=
  let s := get_settings Q st
  let stE : Except Err Broker :=
    if doClean then
      match clean Q false now s.2 with
      | .error e => .error e
      | .ok r => .ok r.2
    else .ok s.2
  match stE with
  | .error e => .error e
  | .ok st =>
      publishCore Q msg_text priority requeue requeue_prio timeout
        requeue_counter requeue_limit st

/-- The dictionary of a freshly constructed empty message object:
message.__init__ (message.py line 30) assigns the ten attributes in this
order, each None by default. -/
def initMsgDict : Dict :=
  [("message", JVal.null), ("queue", JVal.null), ("timeout", JVal.null),
   ("id", JVal.null), ("priority", JVal.null), ("queue_number", JVal.null),
   ("filename", JVal.null), ("requeue", JVal.null),
   ("requeue_counter", JVal.null), ("requeue_limit", JVal.null)]

/-- The dictionary of a message object constructed with all ten fields
supplied. -/
def mkMsgDict (vmsg vqueue vtimeout vid vprio vqn vfn vrq vrc vrl : JVal) : Dict :=
  [("message", vmsg), ("queue", vqueue), ("timeout", vtimeout),
   ("id", vid), ("priority", vprio), ("queue_number", vqn),
   ("filename", vfn), ("requeue", vrq), ("requeue_counter", vrc),
   ("requeue_limit", vrl)]

/-- message.json2msg (message.py line 63): a fresh empty message object
whose __dict__ is updated with the whole package. -/
def json2msg (pkg : Dict) : Dict := alistUpdate initMsgDict pkg

/-- message.msg2json (message.py line 79): json.dumps of the object's
__dict__; at the level of JSON objects the serialized form is the
dictionary itself. -/
def msg2json (d : Dict) : Dict := d

/-- A broker state over an initiated root with one queue "q", empty config
files, nothing cached, no messages, and a deterministic id supply. -/
def exBroker : Broker :=
  { globalSettings := defaultSettings, conf := fun _ => [], cache := [],
    waiting := fun _ => [], work := fun _ => [], ids := ["bb", "cc"],
    queueNames := ["q"] }

/-- A plain published message of queue "q" that does not ask to be
requeued. -/
def exMsg : Msg :=
  { message := "hello", queue := "q", priority := 999, queue_number := 1,
    id := "aa", filename := "q/999.1.ddmqaa".data, timeout := none,
    requeue := RQVal.bool false, requeue_counter := 0, requeue_limit := none }

/-- A message that asks to be requeued and whose requeue counter has
reached its requeue limit of 2. -/
def exMsgLim : Msg :=
  { exMsg with
    requeue := RQVal.bool true, requeue_counter := 2,
    requeue_limit := some 2 }

/-- The waiting name of exMsg. -/
def exName : List Char := "999.1.ddmqaa".data

/-- The leased key of exMsg after a consume that set expiry 1000. -/
def exKey : Int × List Char := (1000, exName)

/-- A state whose work directory holds the leased limit-reached message,
with the settings of "q" already cached. -/
def exStLim : Broker :=
  { exBroker with
    work := fnSet exBroker.work "q" [(exKey, exMsgLim)],
    cache := [("q", defaultSettings)] }

/-- A state whose work directory holds the limit-reached message under an
expiry that has already passed. -/
def exStLimExp : Broker :=
  { exBroker with work := fnSet exBroker.work "q" [((500, exName), exMsgLim)] }

/-- A state whose work directory holds one leased message that does not
ask to be requeued. -/
def exStNack : Broker :=
  { exBroker with work := fnSet exBroker.work "q" [(exKey, exMsg)] }

/-- A waiting message of priority 2 (the docstring payload fields are
immaterial to the ordering claims). -/
def exMsgP2 : Msg :=
  { exMsg with priority := 2, filename := "q/2.1.ddmqaa".data }

/-- A waiting message of priority 10. -/
def exMsgP10 : Msg :=
  { exMsg with priority := 10, id := "bb", filename := "q/10.1.ddmqbb".data }

/-- A queue holding exactly the two waiting messages of priorities 2 and
10, under the filenames publish would create for them. -/
def exStPrio : Broker :=
  { exBroker with
    waiting := fnSet exBroker.waiting "q"
      [(waitingName 2 1 "aa", exMsgP2), (waitingName 10 1 "bb", exMsgP10)] }

/-- A waiting message of priority 3. -/
def exMsgP3 : Msg := { exMsg with priority := 3 }

/-- A waiting message of priority 7. -/
def exMsgP7 : Msg := { exMsg with priority := 7, id := "bb" }

/-- A queue holding exactly the two waiting messages of priorities 7 and
3, listed in that order. -/
def exStPrio37 : Broker :=
  { exBroker with
    waiting := fnSet exBroker.waiting "q"
      [(waitingName 7 1 "bb", exMsgP7), (waitingName 3 1 "aa", exMsgP3)] }


/-- A queue holding exactly one waiting message. -/
def exStOne : Broker :=
  { exBroker with waiting := fnSet exBroker.waiting "q" [(exName, exMsg)] }

/- ------------------------------------------------------------------ -/
/- Theorems.                                                          -/
/- ------------------------------------------------------------------ -/

theorem alistGet_alistSet_self {κ β : Type} [DecidableEq κ]
    (d : List (κ × β)) (k : κ) (v : β) : alistGet (alistSet d k v) k = some v := by
  induction d with
  | nil => simp [alistSet, alistGet]
  | cons e es ih =>
      by_cases h : e.1 = k
      · simp [alistSet, alistGet, h]
      · simp [alistSet, alistGet, h, ih]

theorem alistSet_append_of_notMem {κ β : Type} [DecidableEq κ]
    (d : List (κ × β)) (k : κ) (v : β) (h : k ∉ alistKeys d) :
    alistSet d k v = d ++ [(k, v)] := by
  induction d with
  | nil => simp [alistSet]
  | cons e es ih =>
      simp only [alistKeys, List.map_cons, List.mem_cons] at h
      push_neg at h
      have hne : e.1 ≠ k := fun he => h.1 he.symm
      simp only [alistSet, if_neg hne, List.cons_append, List.cons.injEq, true_and]
      rw [ih]
      simpa [alistKeys] using h.2

theorem alistKeys_alistSet_subset {κ β : Type} [DecidableEq κ]
    (d : List (κ × β)) (k k' : κ) (v : β) (h : k ∈ alistKeys (alistSet d k' v)) :
    k ∈ alistKeys d ∨ k = k' := by
  induction d with
  | nil => simpa [alistSet, alistKeys] using h
  | cons e es ih =>
      by_cases he : e.1 = k'
      · simp only [alistSet, if_pos he, alistKeys, List.map_cons, List.mem_cons] at h ⊢
        rcases h with h | h
        · exact Or.inr h
        · exact Or.inl (Or.inr h)
      · simp only [alistSet, if_neg he, alistKeys, List.map_cons, List.mem_cons] at h ⊢
        rcases h with h | h
        · exact Or.inl (Or.inl h)
        · rcases ih h with h' | h'
          · exact Or.inl (Or.inr h')
          · exact Or.inr h'

theorem alistKeys_alistUpdate_subset {κ β : Type} [DecidableEq κ]
    (d pkg : List (κ × β)) (k : κ) (h : k ∈ alistKeys (alistUpdate d pkg)) :
    k ∈ alistKeys d ∨ k ∈ alistKeys pkg := by
  induction pkg generalizing d with
  | nil => exact Or.inl h
  | cons e es ih =>
      simp only [alistUpdate, List.foldl_cons] at h
      rcases ih (alistSet d e.1 e.2) h with h' | h'
      · rcases alistKeys_alistSet_subset d k e.1 e.2 h' with h'' | h''
        · exact Or.inl h''
        · exact Or.inr (by simp [alistKeys, h''])
      · exact Or.inr (by simp [alistKeys]; right; simpa [alistKeys] using h')

theorem alistUpdate_append {κ β : Type} [DecidableEq κ]
    (d pkg : List (κ × β)) (e : κ × β) :
    alistUpdate d (pkg ++ [e]) = alistSet (alistUpdate d pkg) e.1 e.2 := by
  simp [alistUpdate, List.foldl_append]


theorem pyStrLt_irrefl (s : List Char) : pyStrLt s s = false := by
  induction s with
  | nil => rfl
  | cons a as ih => simp [pyStrLt, ih]

theorem pyStrLt_asymm : ∀ {s t : List Char}, pyStrLt s t = true → pyStrLt t s = false
  | [], [], h => by simp [pyStrLt] at h
  | [], _ :: _, _ => by simp [pyStrLt]
  | _ :: _, [], h => by simp [pyStrLt] at h
  | a :: as, b :: bs, h => by
      by_cases hab : a < b
      · have hba : ¬ b < a := asymm hab
        simp [pyStrLt, hab, hba]
      · by_cases hba : b < a
        · simp [pyStrLt, hab, hba] at h
        · simp only [pyStrLt, if_neg hab, if_neg hba] at h ⊢
          exact pyStrLt_asymm h

theorem ne_of_pyStrLt {s t : List Char} (h : pyStrLt s t = true) : s ≠ t := by
  intro he
  rw [he, pyStrLt_irrefl] at h
  exact Bool.false_ne_true h

theorem pyStrLt_append {s t : List Char} (u v : List Char)
    (hlen : s.length = t.length) (h : pyStrLt s t = true) :
    pyStrLt (s ++ u) (t ++ v) = true := by
  induction s generalizing t with
  | nil =>
      cases t with
      | nil => simp [pyStrLt] at h
      | cons b bs => simp at hlen
  | cons a as ih =>
      cases t with
      | nil => simp at hlen
      | cons b bs =>
          simp only [List.length_cons, Nat.add_right_cancel_iff] at hlen
          by_cases hab : a < b
          · simp [pyStrLt, hab]
          · by_cases hba : b < a
            · simp [pyStrLt, hab, hba] at h
            · simp only [pyStrLt, if_neg hab, if_neg hba] at h
              simp only [List.cons_append, pyStrLt, if_neg hab, if_neg hba]
              exact ih hlen h

theorem pyStrLt_append_last (s : List Char) {x y : Char} (h : x < y) :
    pyStrLt (s ++ [x]) (s ++ [y]) = true := by
  induction s with
  | nil => simp [pyStrLt, h]
  | cons a as ih => simp [pyStrLt, lt_irrefl, ih]

theorem decStrAux_congr : ∀ (f1 f2 n : Nat), n < f1 → n < f2 →
    decStrAux f1 n = decStrAux f2 n := by
  intro f1
  induction f1 with
  | zero => intro f2 n h1 _; omega
  | succ a ih =>
      intro f2 n h1 h2
      cases f2 with
      | zero => omega
      | succ b =>
          by_cases h : n < 10
          · simp [decStrAux, h]
          · simp only [decStrAux, if_neg h]
            have hd : n / 10 < n := Nat.div_lt_self (by omega) (by omega)
            rw [ih b (n / 10) (by omega) (by omega)]

theorem decStr_of_lt {n : Nat} (h : n < 10) : decStr n = [Nat.digitChar n] := by
  simp [decStr, decStrAux, h]

theorem decStr_of_ge {n : Nat} (h : ¬ n < 10) :
    decStr n = decStr (n / 10) ++ [Nat.digitChar (n % 10)] := by
  have hd : n / 10 < n := Nat.div_lt_self (by omega) (by omega)
  show decStrAux (n + 1) n = decStrAux (n / 10 + 1) (n / 10) ++ [Nat.digitChar (n % 10)]
  have he : decStrAux (n + 1) n = decStrAux n (n / 10) ++ [Nat.digitChar (n % 10)] := by
    simp only [decStrAux, if_neg h]
  rw [he, decStrAux_congr n (n / 10 + 1) (n / 10) (by omega) (by omega)]

theorem decStr_ne_nil (n : Nat) : decStr n ≠ [] := by
  by_cases h : n < 10
  · simp [decStr_of_lt h]
  · simp [decStr_of_ge h]

theorem decStr_length_eq_one_iff {n : Nat} : (decStr n).length = 1 ↔ n < 10 := by
  constructor
  · intro h
    by_contra hn
    rw [decStr_of_ge hn, List.length_append, List.length_singleton] at h
    have hp := List.length_pos.mpr (decStr_ne_nil (n / 10))
    omega
  · intro h
    simp [decStr_of_lt h]

theorem digitChar_lt_digitChar {a b : Nat} (hab : a < b) (hb : b < 10) :
    Nat.digitChar a < Nat.digitChar b := by
  interval_cases b <;> interval_cases a <;> decide

theorem pyStrLt_decStr : ∀ {m n : Nat}, m < n →
    (decStr m).length = (decStr n).length → pyStrLt (decStr m) (decStr n) = true := by
  intro m n
  induction n using Nat.strong_induction_on generalizing m with
  | _ n ih =>
    intro hmn hlen
    by_cases hn : n < 10
    · have hm : m < 10 := lt_trans hmn hn
      rw [decStr_of_lt hm, decStr_of_lt hn]
      simp [pyStrLt, digitChar_lt_digitChar hmn hn]
    · have hm : ¬ m < 10 := by
        intro hm
        rw [decStr_of_lt hm] at hlen
        exact hn (decStr_length_eq_one_iff.mp hlen.symm)
      rw [decStr_of_ge hm, decStr_of_ge hn]
      have hlen' : (decStr (m / 10)).length = (decStr (n / 10)).length := by
        rw [decStr_of_ge hm, decStr_of_ge hn] at hlen
        simpa using hlen
      rcases lt_trichotomy (m / 10) (n / 10) with hd | hd | hd
      · exact pyStrLt_append _ _ hlen' (ih (n / 10) (Nat.div_lt_self (by omega) (by omega)) hd hlen')
      · rw [hd]
        have hmod : m % 10 < n % 10 := by omega
        exact pyStrLt_append_last _ (digitChar_lt_digitChar hmod (Nat.mod_lt _ (by omega)))
      · exfalso
        have hle : m / 10 ≤ n / 10 := Nat.div_le_div_right (Nat.le_of_lt hmn)
        omega

theorem digitVal_digitChar {d : Nat} (h : d < 10) : digitVal (Nat.digitChar d) = d := by
  interval_cases d <;> decide

theorem parseNat_append_last (s : List Char) (c : Char) :
    parseNat (s ++ [c]) = 10 * parseNat s + digitVal c := by
  simp [parseNat, List.foldl_append]

theorem parseNat_decStr (n : Nat) : parseNat (decStr n) = n := by
  induction n using Nat.strong_induction_on with
  | _ n ih =>
    by_cases h : n < 10
    · rw [decStr_of_lt h]
      simp [parseNat, digitVal_digitChar h]
    · rw [decStr_of_ge h, parseNat_append_last,
        ih (n / 10) (Nat.div_lt_self (by omega) (by omega)),
        digitVal_digitChar (Nat.mod_lt _ (by omega))]
      omega

theorem dot_notMem_decStr (n : Nat) : '.' ∉ decStr n := by
  induction n using Nat.strong_induction_on with
  | _ n ih =>
    by_cases h : n < 10
    · rw [decStr_of_lt h]
      interval_cases n <;> decide
    · rw [decStr_of_ge h]
      intro hmem
      rcases List.mem_append.mp hmem with hmem | hmem
      · exact ih (n / 10) (Nat.div_lt_self (by omega) (by omega)) hmem
      · have h10 : n % 10 < 10 := Nat.mod_lt _ (by omega)
        revert hmem
        generalize hk : n % 10 = k
        rw [hk] at h10
        interval_cases k <;> decide

theorem splitDots_append_dot (s t : List Char) (hs : '.' ∉ s) :
    splitDots (s ++ '.' :: t) = s :: splitDots t := by
  induction s with
  | nil => simp [splitDots]
  | cons c cs ih =>
      have hc : ¬ c = '.' := by
        intro h
        exact hs (by simp [h])
      have hcs : '.' ∉ cs := fun h => hs (List.mem_cons_of_mem _ h)
      simp only [List.cons_append, splitDots, if_neg hc]
      rw [show cs.append ('.' :: t) = cs ++ '.' :: t from rfl, ih hcs]



theorem fnSet_same {β : Type} (f : String → β) (k : String) (v : β) :
    fnSet f k v k = v := by
  simp [fnSet]

theorem fnSet_other {β : Type} (f : String → β) (k k' : String) (v : β)
    (h : k' ≠ k) : fnSet f k v k' = f k' := by
  simp [fnSet, h]

theorem pyInsert_perm (x : List Char) (l : List (List Char)) :
    (pyInsert x l).Perm (x :: l) := by
  induction l with
  | nil => exact List.Perm.refl _
  | cons y ys ih =>
      by_cases h : pyLe x y = true
      · simp [pyInsert, h]
      · simp only [pyInsert, if_neg h]
        exact (ih.cons y).trans (List.Perm.swap x y ys)

theorem pySorted_perm (l : List (List Char)) : (pySorted l).Perm l := by
  induction l with
  | nil => exact List.Perm.refl _
  | cons x xs ih => exact (pyInsert_perm x (pySorted xs)).trans (ih.cons x)

theorem pySorted_pair (a b : List Char) :
    pySorted [a, b] = if pyLe a b then [a, b] else [b, a] := by
  simp [pySorted, pyInsert]

theorem alistGet_isSome_of_mem {κ β : Type} [DecidableEq κ]
    {d : List (κ × β)} {k : κ} (h : k ∈ alistKeys d) : (alistGet d k).isSome := by
  induction d with
  | nil => simp [alistKeys] at h
  | cons e es ih =>
      by_cases he : e.1 = k
      · simp [alistGet, he]
      · simp only [alistGet, if_neg he]
        apply ih
        rcases List.mem_cons.mp h with h' | h'
        · exact absurd h'.symm he
        · exact h'

theorem mem_alistKeys_alistRemove {κ β : Type} [DecidableEq κ]
    {d : List (κ × β)} {k k' : κ} (h : k' ∈ alistKeys d) (hne : k' ≠ k) :
    k' ∈ alistKeys (alistRemove d k) := by
  induction d with
  | nil => simp [alistKeys] at h
  | cons e es ih =>
      rcases List.mem_cons.mp h with h' | h'
      · have : ¬ e.1 = k := by
          rw [← h']
          exact fun hc => hne hc
        simp [alistRemove, this, alistKeys, h']
      · by_cases he : e.1 = k
        · simpa [alistRemove, he] using ih h'
        · simp only [alistRemove, if_neg he, alistKeys, List.map_cons, List.mem_cons]
          exact Or.inr (ih h')

theorem get_settings_waiting (Q : String) (st : Broker) :
    (get_settings Q st).2.waiting = st.waiting := by
  unfold get_settings
  cases alistGet st.cache Q <;> rfl

theorem get_settings_work (Q : String) (st : Broker) :
    (get_settings Q st).2.work = st.work := by
  unfold get_settings
  cases alistGet st.cache Q <;> rfl

theorem get_settings_conf (Q : String) (st : Broker) :
    (get_settings Q st).2.conf = st.conf := by
  unfold get_settings
  cases alistGet st.cache Q <;> rfl

theorem get_settings_globalSettings (Q : String) (st : Broker) :
    (get_settings Q st).2.globalSettings = st.globalSettings := by
  unfold get_settings
  cases alistGet st.cache Q <;> rfl

theorem get_settings_cache_after (Q : String) (st : Broker) :
    alistGet (get_settings Q st).2.cache Q = some (get_settings Q st).1 := by
  unfold get_settings
  cases h : alistGet st.cache Q with
  | none => simpa using alistGet_alistSet_self st.cache Q _
  | some qs => simpa using h

theorem get_settings_of_cached {Q : String} {st : Broker} {qs : Dict}
    (h : alistGet st.cache Q = some qs) : get_settings Q st = (qs, st) := by
  unfold get_settings
  rw [h]

theorem get_settings_idem (Q : String) (st : Broker) :
    get_settings Q (get_settings Q st).2 = ((get_settings Q st).1, (get_settings Q st).2) := by
  exact get_settings_of_cached (get_settings_cache_after Q st)



theorem publishCore_ok {Q : String} {text : String} {priority : Option Int}
    {rq : RQVal} {rqp tmo : Option Int} {rc : Int} {rl : Option Int}
    {st : Broker} {m : Msg} {st' : Broker}
    (h : publishCore Q text priority rq rqp tmo rc rl st = .ok (m, st')) :
    m.message = text ∧ m.queue = Q ∧ m.requeue_counter = rc ∧
    m.requeue_limit = rl ∧ m.timeout = tmo ∧
    st'.work = st.work ∧ st'.conf = st.conf ∧
    st'.waiting Q = alistSet (st.waiting Q)
      (waitingName m.priority m.queue_number m.id) m ∧
    (∀ q, q ≠ Q → st'.waiting q = st.waiting q) ∧
    (priority = none → m.priority = getInt (get_settings Q st).1 "priority") ∧
    (priority = some 0 → m.priority = getInt (get_settings Q st).1 "priority") ∧
    (∀ i, priority = some i → 0 < i → m.priority = i) := by
  have hw := get_settings_waiting Q st
  have hwk := get_settings_work Q st
  have hcf := get_settings_conf Q st
  unfold publishCore at h
  rcases priority with _ | i
  · simp only [] at h
    injection h with h'
    injection h' with hm hst
    subst hm
    subst hst
    refine ⟨rfl, rfl, rfl, rfl, rfl, ?_, ?_, ?_, ?_, ?_, ?_, ?_⟩
    · simpa using hwk
    · simpa using hcf
    · simp [freshId, fnSet_same, hw]
    · intro q hq
      simp [freshId, fnSet_other _ _ _ _ hq, hw]
    · intro
      rfl
    · intro hc
      cases hc
    · intro i hc
      cases hc
  · by_cases h0 : i = 0
    · subst h0
      simp only [if_pos rfl] at h
      injection h with h'
      injection h' with hm hst
      subst hm
      subst hst
      refine ⟨rfl, rfl, rfl, rfl, rfl, ?_, ?_, ?_, ?_, ?_, ?_, ?_⟩
      · simpa using hwk
      · simpa using hcf
      · simp [freshId, fnSet_same, hw]
      · intro q hq
        simp [freshId, fnSet_other _ _ _ _ hq, hw]
      · intro hc
        cases hc
      · intro
        rfl
      · intro j hj hpos
        have hij := Option.some.inj hj
        omega
    · by_cases hneg : i < 0
      · simp only [if_neg h0, if_pos hneg] at h
        cases h
      · simp only [if_neg h0, if_neg hneg] at h
        injection h with h'
        injection h' with hm hst
        subst hm
        subst hst
        refine ⟨rfl, rfl, rfl, rfl, rfl, ?_, ?_, ?_, ?_, ?_, ?_, ?_⟩
        · simpa using hwk
        · simpa using hcf
        · simp [freshId, fnSet_same, hw]
        · intro q hq
          simp [freshId, fnSet_other _ _ _ _ hq, hw]
        · intro hc
          cases hc
        · intro hc
          exact absurd (Option.some.inj hc) h0
        · intro j hj _
          exact Option.some.inj hj

theorem publishCore_ok_of_nonneg (Q text : String) (i : Int) (rq : RQVal)
    (rqp tmo : Option Int) (rc : Int) (rl : Option Int) (st : Broker)
    (hi : 0 ≤ i) :
    ∃ m st', publishCore Q text (some i) rq rqp tmo rc rl st = .ok (m, st') := by
  unfold publishCore
  by_cases h0 : i = 0
  · subst h0
    exact ⟨_, _, rfl⟩
  · have hneg : ¬ i < 0 := by omega
    simp only [if_neg h0, if_neg hneg]
    exact ⟨_, _, rfl⟩

theorem publishCore_error_eq {Q text : String} {priority : Option Int}
    {rq : RQVal} {rqp tmo : Option Int} {rc : Int} {rl : Option Int}
    {st : Broker} {e : Err}
    (h : publishCore Q text priority rq rqp tmo rc rl st = .error e) :
    e = Err.invalidPriority := by
  unfold publishCore at h
  rcases priority with _ | i
  · cases h
  · by_cases h0 : i = 0
    · subst h0
      simp only [if_pos rfl] at h
      cases h
    · by_cases hneg : i < 0
      · simp only [if_neg h0, if_pos hneg] at h
        injection h with h'
        exact h'.symm
      · simp only [if_neg h0, if_neg hneg] at h
        cases h

theorem cleanStep_error_acc (Q : String) (now : Int) (qs : Dict) (er : Err)
    (e : (Int × List Char) × Msg) :
    cleanStep Q now qs (.error er) e = .error er := rfl

theorem cleanStep_skip (Q : String) (now : Int) (qs : Dict) (st : Broker)
    (e : (Int × List Char) × Msg) (h : ¬ e.1.1 < now) :
    cleanStep Q now qs (.ok st) e = .ok st := by
  simp [cleanStep, h]

theorem cleanFold_skip (Q : String) (now : Int) (qs : Dict)
    (entries : List ((Int × List Char) × Msg)) (st : Broker)
    (h : ∀ e ∈ entries, ¬ e.1.1 < now) :
    entries.foldl (cleanStep Q now qs) (.ok st) = .ok st := by
  induction entries with
  | nil => rfl
  | cons e es ih =>
      rw [List.foldl_cons, cleanStep_skip Q now qs st e (h e (List.mem_cons_self e es))]
      exact ih (fun e' he' => h e' (List.mem_cons_of_mem e he'))

theorem cleanStep_error {Q : String} {now : Int} {qs : Dict}
    {acc : Except Err Broker} {e : (Int × List Char) × Msg} {er : Err}
    (h : cleanStep Q now qs acc e = .error er) :
    acc = .error er ∨ er = Err.invalidPriority := by
  rcases acc with er' | st
  · left
    rw [cleanStep_error_acc] at h
    exact h.symm ▸ rfl
  · right
    by_cases hexp : e.1.1 < now
    · simp only [cleanStep, if_pos hexp] at h
      by_cases ht : e.2.requeue.truthy = true
      · simp only [ht, if_pos rfl] at h
        by_cases hl : (limitFalsy e.2.requeue_limit || underLimit e.2.requeue_counter e.2.requeue_limit) = true
        · simp only [hl, if_pos rfl] at h
          cases hp : publishCore e.2.queue e.2.message
              (some (match e.2.requeue with | RQVal.int i => i | _ => getInt qs "requeue_prio"))
              e.2.requeue none none (e.2.requeue_counter + 1) e.2.requeue_limit st with
          | error e' =>
              rw [hp] at h
              injection h with h'
              rw [← h']
              exact publishCore_error_eq hp
          | ok r =>
              rw [hp] at h
              cases h
        · simp only [Bool.not_eq_true] at hl
          simp only [hl, Bool.false_eq_true, if_false] at h
          cases h
      · simp only [Bool.not_eq_true] at ht
        simp only [ht, Bool.false_eq_true, if_false] at h
        cases h
    · rw [cleanStep_skip Q now qs st e hexp] at h
      cases h

theorem cleanFold_error {Q : String} {now : Int} {qs : Dict}
    {entries : List ((Int × List Char) × Msg)} {acc : Except Err Broker} {er : Err}
    (h : entries.foldl (cleanStep Q now qs) acc = .error er) :
    acc = .error er ∨ er = Err.invalidPriority := by
  induction entries generalizing acc with
  | nil => exact Or.inl h
  | cons e es ih =>
      rw [List.foldl_cons] at h
      rcases ih h with h' | h'
      · exact cleanStep_error h'
      · exact Or.inr h'

theorem cleanBody_error {Q : String} {now : Int} {st : Broker} {e : Err}
    (h : cleanBody Q now st = .error e) : e = Err.invalidPriority := by
  simp only [cleanBody] at h
  cases hf : ((get_settings Q st).2.work Q).foldl
      (cleanStep Q now (get_settings Q st).1) (.ok (get_settings Q st).2) with
  | error er =>
      rw [hf] at h
      injection h with h'
      rcases cleanFold_error hf with h'' | h''
      · cases h''
      · rw [← h']
        exact h''
  | ok st' =>
      rw [hf] at h
      cases h



theorem cleanStep_limit_reached (Q : String) (now : Int) (qs : Dict)
    (st : Broker) (E : Int) (name : List Char) (msg : Msg) (L : Int)
    (hexp : E < now) (hlim : msg.requeue_limit = some L) (hL : L ≠ 0)
    (hcnt : L ≤ msg.requeue_counter) :
    cleanStep Q now qs (.ok st) ((E, name), msg) =
      .ok { st with work := fnSet st.work Q (alistRemove (st.work Q) (E, name)) } := by
  have hfal : limitFalsy msg.requeue_limit = false := by
    simp only [limitFalsy, hlim]
    exact beq_eq_false_iff_ne.mpr hL
  have hund : underLimit msg.requeue_counter msg.requeue_limit = false := by
    simp only [underLimit, hlim, decide_eq_false_iff_not]
    omega
  by_cases ht : msg.requeue.truthy = true
  · simp [cleanStep, hexp, ht, hfal, hund]
  · simp only [Bool.not_eq_true] at ht
    simp [cleanStep, hexp, ht]

/-- C3 (amended): only the cleaner enforces the requeue limit.  When an
expired leased message has a nonzero requeue_limit that its
requeue_counter has reached, clean removes the leased file and republishes
nothing, leaving every queue directory unchanged. -/
theorem clean_limit_reached_removes_without_republish
    (Q : String) (now E : Int) (name : List Char) (msg : Msg)
    (w1 w2 : List ((Int × List Char) × Msg)) (L : Int) (st : Broker)
    (hwork : st.work Q = w1 ++ ((E, name), msg) :: w2)
    (hexp : E < now)
    (h1 : ∀ e ∈ w1, ¬ e.1.1 < now) (h2 : ∀ e ∈ w2, ¬ e.1.1 < now)
    (hlim : msg.requeue_limit = some L) (hL : L ≠ 0)
    (hcnt : L ≤ msg.requeue_counter) :
    ∃ st', clean Q true now st = .ok (true, st') ∧
      (∀ q, st'.waiting q = st.waiting q) ∧
      st'.work Q = alistRemove (st.work Q) (E, name) := by
  have hw1 : (get_settings Q st).2.work Q = w1 ++ ((E, name), msg) :: w2 := by
    rw [get_settings_work]
    exact hwork
  have hstep := cleanStep_limit_reached Q now (get_settings Q st).1
    (get_settings Q st).2 E name msg L hexp hlim hL hcnt
  rw [get_settings_work] at hstep
  have hfold : List.foldl (cleanStep Q now (get_settings Q st).1)
      (.ok (get_settings Q st).2) (w1 ++ ((E, name), msg) :: w2) =
      .ok { (get_settings Q st).2 with
            work := fnSet st.work Q (alistRemove (st.work Q) (E, name)) } := by
    rw [List.foldl_append, cleanFold_skip _ _ _ w1 _ h1, List.foldl_cons,
      hstep, cleanFold_skip _ _ _ w2 _ h2]
  have hclean : clean Q true now st =
      .ok (true, update_settings_file Q [("cleaned", JVal.int now)]
        { (get_settings Q st).2 with
          work := fnSet st.work Q (alistRemove (st.work Q) (E, name)) }) := by
    simp only [clean, cleanBody, if_true]
    rw [hw1, hfold]
  refine ⟨_, hclean, ?_, ?_⟩
  · intro q
    show ((get_settings Q st).2).waiting q = st.waiting q
    rw [get_settings_waiting]
  · show fnSet st.work Q (alistRemove (st.work Q) (E, name)) Q
        = alistRemove (st.work Q) (E, name)
    rw [fnSet_same]

/-- C7: with force unset, a cached cleaned timestamp younger than
now - 60 makes clean report False and change nothing. -/
theorem clean_throttled_does_no_work (Q : String) (now : Int) (st : Broker)
    (qs : Dict) (hc : alistGet st.cache Q = some qs)
    (h : now - 60 < getInt qs "cleaned") :
    clean Q false now st = .ok (false, st) := by
  have hnot : ¬ (getInt qs "cleaned" < now - 60) := by omega
  simp [clean, hc, hnot]

/-- Witness for C7 at a concrete state: the cached cleaned timestamp 0 is
newer than 50 - 60, so the call reports False and returns the state
untouched. -/
theorem clean_throttled_does_no_work_witness :
    alistGet exStLim.cache "q" = some defaultSettings ∧
    ((50 : Int) - 60 < getInt defaultSettings "cleaned") ∧
    clean "q" false 50 exStLim = .ok (false, exStLim) :=
  ⟨by decide, by decide,
    clean_throttled_does_no_work "q" 50 exStLim defaultSettings (by decide) (by decide)⟩

/-- C10: without force, clean reads the settings-cache entry before
loading it, so an uncached queue raises KeyError; force short-circuits the
check and the body can only raise the republish error, never KeyError;
clean_all on a broker that has cached nothing crashes on its first
queue. -/
theorem clean_uncached_raises_keyError (Q : String) (now : Int) (st : Broker)
    (rest : List String) (hc : alistGet st.cache Q = none) :
    clean Q false now st = .error .keyError ∧
    (∀ e, clean Q true now st = .error e → e ≠ .keyError) ∧
    (st.queueNames = Q :: rest → clean_all now st = .error .keyError) := by
  refine ⟨?_, ?_, ?_⟩
  · simp [clean, hc]
  · intro e he
    simp only [clean, if_pos rfl] at he
    rw [cleanBody_error he]
    decide
  · intro hq
    simp [clean_all, hq, cleanAllGo, clean, hc]

/-- Witness for C10 at a concrete freshly constructed broker with one
queue: the forced call succeeds while the unforced one raises KeyError. -/
theorem clean_uncached_raises_keyError_witness :
    alistGet exBroker.cache "q" = none ∧
    clean "q" false 1000 exBroker = .error .keyError ∧
    clean_all 1000 exBroker = .error .keyError :=
  ⟨by decide,
   (clean_uncached_raises_keyError "q" 1000 exBroker [] (by decide)).1,
   (clean_uncached_raises_keyError "q" 1000 exBroker [] (by decide)).2.2 rfl⟩


/-- C3 (counterexample): a nack that forces a requeue republishes a new
message even though the requeue counter (2) has reached the requeue limit
(2) — requeue via ack/nack performs no limit check, so the claim fails on
that path. -/
theorem nack_forced_requeue_ignores_limit :
    (match nack "q" [exKey] (some true) exStLim with
     | .ok p => some (p.1, (p.2.waiting "q").map (fun e => (e.2.requeue_counter, e.2.requeue_limit)), (p.2.work "q").length)
     | .error _ => none)
    = some ([exKey], [(3, some 2)], 0) := by decide

/-- Witness for the amended C3 at a concrete state: one expired leased
message with counter 2 and limit 2 is removed by a forced clean and
nothing is republished. -/
theorem clean_limit_reached_removes_without_republish_witness :
    ((500 : Int) < 1000) ∧
    ∃ st', clean "q" true 1000 exStLimExp = .ok (true, st') ∧
      (∀ q, st'.waiting q = exStLimExp.waiting q) ∧
      st'.work "q" = alistRemove (exStLimExp.work "q") (500, exName) :=
  ⟨by decide,
   clean_limit_reached_removes_without_republish "q" 1000 500 exName exMsgLim
     [] [] 2 exStLimExp (by decide) (by decide) (by simp) (by simp) rfl
     (by decide) (by decide)⟩

theorem requeue_message_ok {Q : String} {f : Int × List Char} {m : Msg}
    {st : Broker} (hq : m.queue = Q)
    (hwk : (alistGet (st.work Q) f).isSome)
    (hprio : 0 ≤ (match m.requeue with
                  | RQVal.int i => i
                  | _ => getInt (get_settings Q st).1 "requeue_prio")) :
    ∃ m' st', requeue_message Q f (some m) st = .ok st' ∧
      m'.message = m.message ∧ m'.queue = Q ∧
      m'.requeue_counter = m.requeue_counter + 1 ∧
      m'.requeue_limit = m.requeue_limit ∧
      st'.work Q = alistRemove (st.work Q) f ∧
      (∀ q, q ≠ Q → st'.work q = st.work q) ∧
      st'.waiting Q = alistSet (st.waiting Q)
        (waitingName m'.priority m'.queue_number m'.id) m' ∧
      (∀ q, q ≠ Q → st'.waiting q = st.waiting q) := by
  subst hq
  obtain ⟨m', st2, hp⟩ := publishCore_ok_of_nonneg m.queue m.message
    (match m.requeue with
     | RQVal.int i => i
     | _ => getInt (get_settings m.queue st).1 "requeue_prio")
    m.requeue none none (m.requeue_counter + 1) m.requeue_limit
    (get_settings m.queue st).2 hprio
  obtain ⟨hmsg, hmq, hrc, hrl, _, hwork2, _, hwait2, hwaito2, _, _, _⟩ :=
    publishCore_ok hp
  have hwk2 : alistGet (st2.work m.queue) f = alistGet (st.work m.queue) f := by
    rw [hwork2, get_settings_work]
  refine ⟨m', { st2 with
    work := fnSet st2.work m.queue (alistRemove (st2.work m.queue) f) }, ?_, hmsg, hmq, hrc, hrl, ?_, ?_, ?_, ?_⟩
  · simp only [requeue_message]
    rw [hp]
    simp only [hwk2, hwk, if_true]
  · show fnSet st2.work m.queue (alistRemove (st2.work m.queue) f) m.queue
        = alistRemove (st.work m.queue) f
    rw [fnSet_same, hwork2, get_settings_work]
  · intro q hqn
    show fnSet st2.work m.queue (alistRemove (st2.work m.queue) f) q = st.work q
    rw [fnSet_other _ _ _ _ hqn, hwork2, get_settings_work]
  · show st2.waiting m.queue = alistSet (st.waiting m.queue)
      (waitingName m'.priority m'.queue_number m'.id) m'
    rw [hwait2, get_settings_waiting]
  · intro q hqn
    show st2.waiting q = st.waiting q
    rw [hwaito2 q hqn, get_settings_waiting]

/-- C4 (amended): nack with its default requeue=None respects the
message's own requeue field, and the file is reported in the returned
list in both cases; a truthy field republish-then-removes, but a falsy
field leaves the leased file in place (it is not removed). -/
theorem nack_default_respects_message_requeue (Q : String)
    (f : Int × List Char) (m : Msg) (st : Broker)
    (hget : alistGet (st.work Q) f = some m) (hq : m.queue = Q) :
    (m.requeue.truthy = false →
      ∃ st', nack Q [f] none st = .ok ([f], st') ∧
        (∀ q, st'.work q = st.work q) ∧ (∀ q, st'.waiting q = st.waiting q)) ∧
    (m.requeue.truthy = true →
      0 ≤ (match m.requeue with
           | RQVal.int i => i
           | _ => getInt (get_settings Q st).1 "requeue_prio") →
      ∃ m' st', nack Q [f] none st = .ok ([f], st') ∧
        m'.message = m.message ∧ m'.requeue_counter = m.requeue_counter + 1 ∧
        st'.work Q = alistRemove (st.work Q) f ∧
        st'.waiting Q = alistSet (st.waiting Q)
          (waitingName m'.priority m'.queue_number m'.id) m') := by
  have hget1 : alistGet ((get_settings Q st).2.work Q) f = some m := by
    rw [get_settings_work]
    exact hget
  constructor
  · intro ht
    refine ⟨(get_settings Q st).2, ?_, ?_, ?_⟩
    · simp only [nack, List.foldl_cons, List.foldl_nil, nackStep, hget1, ht,
        Bool.false_eq_true, if_false]
      rfl
    · intro q
      rw [get_settings_work]
    · intro q
      rw [get_settings_waiting]
  · intro ht hprio
    have hprio1 : 0 ≤ (match m.requeue with
        | RQVal.int i => i
        | _ => getInt (get_settings Q (get_settings Q st).2).1 "requeue_prio") := by
      rw [get_settings_idem]
      exact hprio
    have hwk1 : (alistGet ((get_settings Q st).2.work Q) f).isSome := by
      rw [hget1]
      rfl
    obtain ⟨m', st', hrm, hmsg, hmq, hrc, hrl, hwork', hworko', hwait', hwaito'⟩ :=
      requeue_message_ok hq hwk1 hprio1
    refine ⟨m', st', ?_, hmsg, hrc, ?_, ?_⟩
    · simp only [nack, List.foldl_cons, List.foldl_nil, nackStep, hget1, ht,
        if_true, hrm]
      rfl
    · rw [hwork', get_settings_work]
    · rw [hwait', get_settings_waiting]

/-- C4 (counterexample): nacking a leased message whose requeue field is
falsy, with the default requeue=None, reports the file as nacked but does
not remove it — the work directory is unchanged, where the claim says the
leased file is removed. -/
theorem nack_default_falsy_leaves_file :
    (match nack "q" [exKey] none exStNack with
     | .ok p => some (p.1, p.2.work "q" = exStNack.work "q", (p.2.waiting "q").length)
     | .error _ => none) = some ([exKey], true, 0) := by decide

/-- Witness for the amended C4 at a concrete state: a truthy requeue field
makes the default nack republish (counter incremented) and remove the
leased file. -/
theorem nack_default_respects_message_requeue_witness :
    alistGet (exStLim.work "q") exKey = some exMsgLim ∧
    ∃ m' st', nack "q" [exKey] none exStLim = .ok ([exKey], st') ∧
      m'.message = exMsgLim.message ∧
      m'.requeue_counter = exMsgLim.requeue_counter + 1 ∧
      st'.work "q" = alistRemove (exStLim.work "q") exKey ∧
      st'.waiting "q" = alistSet (exStLim.waiting "q")
        (waitingName m'.priority m'.queue_number m'.id) m' :=
  ⟨by decide,
   (nack_default_respects_message_requeue "q" exKey exMsgLim exStLim
     (by decide) rfl).2 (by decide) (by decide)⟩



theorem intStr_natCast (n : Nat) : intStr (n : Int) = decStr n := by
  have h : ¬ ((n : Int) < 0) := by omega
  simp [intStr, h]

theorem splitDots_waitingName (i : Int) (hi : 0 ≤ i) (qn : Nat) (idv : String) :
    (splitDots (waitingName i qn idv)).headD [] = decStr i.toNat := by
  have h : ¬ (i < 0) := by omega
  have he : intStr i = decStr i.toNat := by simp [intStr, h]
  rw [waitingName, he, splitDots_append_dot _ _ (dot_notMem_decStr i.toNat)]
  rfl

theorem publishCore_ok_none (Q text : String) (rq : RQVal)
    (rqp tmo : Option Int) (rc : Int) (rl : Option Int) (st : Broker) :
    ∃ m st', publishCore Q text none rq rqp tmo rc rl st = .ok (m, st') := by
  unfold publishCore
  exact ⟨_, _, rfl⟩

theorem publishCore_neg (Q text : String) (i : Int) (rq : RQVal)
    (rqp tmo : Option Int) (rc : Int) (rl : Option Int) (st : Broker)
    (hneg : i < 0) :
    publishCore Q text (some i) rq rqp tmo rc rl st = .error .invalidPriority := by
  have h0 : ¬ (i = 0) := by omega
  unfold publishCore
  simp [h0, hneg]

theorem publish_noClean (Q text : String) (p : Option Int) (rq : RQVal)
    (rqp tmo : Option Int) (rc : Int) (rl : Option Int) (now : Int) (st : Broker) :
    publish Q text p false rq rqp tmo rc rl now st =
      publishCore Q text p rq rqp tmo rc rl (get_settings Q st).2 := rfl

/-- C5 (amended): publish with cleaning disabled uses the queue's
effective priority when the priority argument is unset or 0 (Python
treats 0 as falsy); a positive priority is carried exactly by the
returned record and by the created waiting file, whose first dot-field is
the decimal of that priority and parses back to it; a negative priority
raises InvalidPriority and the call produces no state, so no message file
is created. -/
theorem publish_priority_validation (Q text : String) (p : Option Int)
    (rq : RQVal) (rqp tmo : Option Int) (rc : Int) (rl : Option Int)
    (now : Int) (st : Broker) :
    ((p = none ∨ p = some 0) →
      ∃ m st', publish Q text p false rq rqp tmo rc rl now st = .ok (m, st') ∧
        m.priority = getInt (get_settings Q st).1 "priority") ∧
    (∀ i, p = some i → 0 < i →
      ∃ m st', publish Q text p false rq rqp tmo rc rl now st = .ok (m, st') ∧
        m.priority = i ∧
        st'.waiting Q = alistSet (st.waiting Q)
          (waitingName i m.queue_number m.id) m ∧
        (splitDots (waitingName i m.queue_number m.id)).headD [] = decStr i.toNat ∧
        parseNat (decStr i.toNat) = i.toNat) ∧
    (∀ i, p = some i → i < 0 →
      publish Q text p false rq rqp tmo rc rl now st = .error .invalidPriority) := by
  refine ⟨?_, ?_, ?_⟩
  · rintro (hp | hp) <;> subst hp
    · obtain ⟨m, st', h⟩ := publishCore_ok_none Q text rq rqp tmo rc rl (get_settings Q st).2
      obtain ⟨_, _, _, _, _, _, _, _, _, hpn, _, _⟩ := publishCore_ok h
      refine ⟨m, st', ?_, ?_⟩
      · rw [publish_noClean, h]
      · rw [hpn rfl, get_settings_idem]
    · obtain ⟨m, st', h⟩ := publishCore_ok_of_nonneg Q text 0 rq rqp tmo rc rl
        (get_settings Q st).2 le_rfl
      obtain ⟨_, _, _, _, _, _, _, _, _, _, hp0, _⟩ := publishCore_ok h
      refine ⟨m, st', ?_, ?_⟩
      · rw [publish_noClean, h]
      · rw [hp0 rfl, get_settings_idem]
  · rintro i rfl hpos
    obtain ⟨m, st', h⟩ := publishCore_ok_of_nonneg Q text i rq rqp tmo rc rl
      (get_settings Q st).2 (le_of_lt hpos)
    obtain ⟨_, _, _, _, _, _, _, hwait, _, _, _, hpi⟩ := publishCore_ok h
    have hmi : m.priority = i := hpi i rfl hpos
    refine ⟨m, st', by rw [publish_noClean, h], hmi, ?_, ?_, parseNat_decStr _⟩
    · rw [hwait, hmi, get_settings_waiting]
    · exact splitDots_waitingName i (le_of_lt hpos) m.queue_number m.id
  · rintro i rfl hneg
    rw [publish_noClean]
    exact publishCore_neg Q text i rq rqp tmo rc rl _ hneg

/-- C5 (counterexample): a supplied priority of 0 is falsy in Python, so
publish ignores it and the record carries the queue's default priority
999, not 0. -/
theorem publish_priority_zero_uses_default :
    (match publish "q" "x" (some 0) false (RQVal.bool false) none none 0 none 1000 exBroker with
     | .ok p => some p.1.priority
     | .error _ => none) = some 999 ∧ (999 : Int) ≠ 0 := by decide

/-- Witness for the amended C5: a positive priority 7 is carried exactly;
the file name's first dot-field is "7" and parses back to 7. -/
theorem publish_priority_validation_witness :
    ((0 : Int) < 7) ∧
    ∃ m st', publish "q" "x" (some 7) false (RQVal.bool false) none none 0 none 1000 exBroker = .ok (m, st') ∧
      m.priority = 7 ∧
      st'.waiting "q" = alistSet (exBroker.waiting "q")
        (waitingName 7 m.queue_number m.id) m ∧
      (splitDots (waitingName 7 m.queue_number m.id)).headD [] = decStr (7 : Int).toNat ∧
      parseNat (decStr (7 : Int).toNat) = (7 : Int).toNat :=
  ⟨by decide,
   (publish_priority_validation "q" "x" (some 7) (RQVal.bool false) none none 0
     none 1000 exBroker).2.1 7 rfl (by decide)⟩

/-- C6 (amended): the first settings request for a queue merges the queue
config over the broker's global settings (defaults plus root config, read
at construction) and caches the result; later requests return the cached
dictionary; update_settings_file rewrites the config file (the written
values land in the file) but does not invalidate the cache, so a request
after the write still returns the old cached settings. -/
theorem settings_cache_never_invalidated (Q : String) (st : Broker)
    (pkg : Dict) (h : alistGet st.cache Q = none) :
    (get_settings Q st).1 = alistUpdate st.globalSettings (st.conf Q) ∧
    (get_settings Q (get_settings Q st).2).1 = (get_settings Q st).1 ∧
    (get_settings Q (update_settings_file Q pkg (get_settings Q st).2)).1
      = (get_settings Q st).1 ∧
    (update_settings_file Q pkg (get_settings Q st).2).conf Q
      = alistUpdate ((get_settings Q st).2.conf Q) pkg := by
  refine ⟨?_, ?_, ?_, ?_⟩
  · simp [get_settings, h]
  · rw [get_settings_idem]
  · have hc : alistGet (update_settings_file Q pkg (get_settings Q st).2).cache Q
        = some (get_settings Q st).1 := get_settings_cache_after Q st
    rw [get_settings_of_cached hc]
  · simp [update_settings_file, fnSet_same]

/-- C6 (counterexample): after the settings of "q" are cached, a config
write of priority 5 through update_settings_file lands in the file but a
following get_settings still reports the old priority 999 — the cache is
not invalidated by the write, where the claim says it is. -/
theorem settings_write_not_seen_by_cache :
    getInt (get_settings "q" (update_settings_file "q" [("priority", JVal.int 5)]
      (get_settings "q" exBroker).2)).1 "priority" = 999 ∧
    getInt ((update_settings_file "q" [("priority", JVal.int 5)]
      (get_settings "q" exBroker).2).conf "q") "priority" = 5 ∧
    (999 : Int) ≠ 5 := by decide

/-- Witness for the amended C6 at a concrete broker with empty configs. -/
theorem settings_cache_never_invalidated_witness :
    alistGet exBroker.cache "q" = none ∧
    (get_settings "q" exBroker).1 = alistUpdate exBroker.globalSettings (exBroker.conf "q") ∧
    (get_settings "q" (update_settings_file "q" [("priority", JVal.int 5)]
      (get_settings "q" exBroker).2)).1 = (get_settings "q" exBroker).1 :=
  ⟨by decide,
   (settings_cache_never_invalidated "q" exBroker [("priority", JVal.int 5)] (by decide)).1,
   (settings_cache_never_invalidated "q" exBroker [("priority", JVal.int 5)] (by decide)).2.2.1⟩



theorem consume_one_of_sorted_head (Q : String) (now : Int) (st : Broker)
    (f : List Char) (rest : List (List Char)) (m : Msg)
    (hsorted : pySorted (((get_settings Q st).2.waiting Q).map Prod.fst) = f :: rest)
    (hget : alistGet ((get_settings Q st).2.waiting Q) f = some m) :
    ∃ m' st', consume Q 1 false now st = .ok (ConsumeRet.items [m'], st') ∧
      m'.priority = m.priority ∧ m'.id = m.id ∧ m'.message = m.message ∧
      m'.queue = m.queue := by
  simp only [consume, Bool.false_eq_true, if_false, hsorted, hget, consumeStep,
    List.take_succ_cons, List.take_zero, List.foldl_cons, List.foldl_nil,
    List.nil_append, List.isEmpty_cons, one_ne_zero]
  exact ⟨_, _, rfl, rfl, rfl, rfl, rfl⟩

/-- C1 (amended): for a queue holding exactly two waiting messages whose
priorities p1 < p2 have decimal representations of the same length, a
consume returns the p1 message first — for equal-width priorities the
lexicographic filename sort used by consume agrees with numeric priority
order. -/
theorem consume_priority_order (Q : String) (p1 p2 s1 s2 : Nat)
    (id1 id2 : String) (m1 m2 : Msg) (now : Int) (st : Broker)
    (h12 : p1 < p2) (hw : (decStr p1).length = (decStr p2).length)
    (hm1 : m1.priority = (p1 : Int))
    (hlist : st.waiting Q =
        [(waitingName (p1 : Int) s1 id1, m1), (waitingName (p2 : Int) s2 id2, m2)] ∨
      st.waiting Q =
        [(waitingName (p2 : Int) s2 id2, m2), (waitingName (p1 : Int) s1 id1, m1)]) :
    ∃ m' st', consume Q 1 false now st = .ok (ConsumeRet.items [m'], st') ∧
      m'.priority = (p1 : Int) ∧ m'.id = m1.id ∧ m'.message = m1.message := by
  have hlt : pyStrLt (waitingName (p1 : Int) s1 id1) (waitingName (p2 : Int) s2 id2) = true := by
    rw [waitingName, waitingName, intStr_natCast, intStr_natCast]
    exact pyStrLt_append _ _ hw (pyStrLt_decStr h12 hw)
  have hne : waitingName (p1 : Int) s1 id1 ≠ waitingName (p2 : Int) s2 id2 :=
    ne_of_pyStrLt hlt
  have hle : pyLe (waitingName (p1 : Int) s1 id1) (waitingName (p2 : Int) s2 id2) = true := by
    simp [pyLe, pyStrLt_asymm hlt]
  have hnle : pyLe (waitingName (p2 : Int) s2 id2) (waitingName (p1 : Int) s1 id1) = false := by
    simp [pyLe, hlt]
  have hw1 : (get_settings Q st).2.waiting Q = st.waiting Q := by
    rw [get_settings_waiting]
  rcases hlist with hA | hA
  · have hsorted : pySorted (((get_settings Q st).2.waiting Q).map Prod.fst) =
        waitingName (p1 : Int) s1 id1 :: [waitingName (p2 : Int) s2 id2] := by
      rw [hw1, hA, List.map_cons, List.map_cons, List.map_nil, pySorted_pair,
        if_pos hle]
    have hget : alistGet ((get_settings Q st).2.waiting Q)
        (waitingName (p1 : Int) s1 id1) = some m1 := by
      rw [hw1, hA]
      simp [alistGet]
    obtain ⟨m', st', hc, hp, hid, hmsg, _⟩ :=
      consume_one_of_sorted_head Q now st _ _ m1 hsorted hget
    exact ⟨m', st', hc, by rw [hp, hm1], hid, hmsg⟩
  · have hsorted : pySorted (((get_settings Q st).2.waiting Q).map Prod.fst) =
        waitingName (p1 : Int) s1 id1 :: [waitingName (p2 : Int) s2 id2] := by
      rw [hw1, hA, List.map_cons, List.map_cons, List.map_nil, pySorted_pair,
        if_neg (by rw [hnle]; exact Bool.false_ne_true)]
    have hget : alistGet ((get_settings Q st).2.waiting Q)
        (waitingName (p1 : Int) s1 id1) = some m1 := by
      rw [hw1, hA]
      simp only [alistGet, if_neg (Ne.symm hne)]
      simp [alistGet]
    obtain ⟨m', st', hc, hp, hid, hmsg, _⟩ :=
      consume_one_of_sorted_head Q now st _ _ m1 hsorted hget
    exact ⟨m', st', hc, by rw [hp, hm1], hid, hmsg⟩

/-- C1 (counterexample): a queue holding exactly two messages published
with priorities 2 and 10 returns the priority-10 message first, because
the lexicographic sort of the unpadded decimal filenames puts
"10.1.ddmqbb" before "2.1.ddmqaa"; the claim applies to every pair of
non-negative priorities and predicts the priority-2 message here. -/
theorem consume_returns_higher_priority_number_first :
    (match consume "q" 1 false 1000 exStPrio with
     | .ok p =>
        match p.1 with
        | ConsumeRet.items ms => some (ms.map (fun m => m.priority))
        | _ => none
     | .error _ => none) = some [10] ∧ (2 : Int) < 10 ∧
    pyStrLt (waitingName 10 1 "bb") (waitingName 2 1 "aa") = true := by decide

/-- Witness for the amended C1 at priorities 3 < 7 (equal width), listed
in reverse order in the directory. -/
theorem consume_priority_order_witness :
    (3 : Nat) < 7 ∧
    ∃ m' st', consume "q" 1 false 1000 exStPrio37 = .ok (ConsumeRet.items [m'], st') ∧
      m'.priority = ((3 : Nat) : Int) ∧ m'.id = exMsgP3.id ∧ m'.message = exMsgP3.message :=
  ⟨by decide,
   consume_priority_order "q" 3 7 1 1 "aa" "bb" exMsgP3 exMsgP7 1000 exStPrio37
     (by decide) (by decide) (by decide) (Or.inr (by decide))⟩



theorem consumeStep_found {Q : String} {now : Int} {qs : Dict}
    (restored : List Msg) {st : Broker} {c : List Char} {m : Msg}
    (hm : alistGet (st.waiting Q) c = some m) :
    ∃ m' w, consumeStep Q now qs (restored, st) c =
      (restored ++ [m'],
       { st with
          waiting := fnSet st.waiting Q (alistRemove (st.waiting Q) c),
          work := w }) := by
  simp only [consumeStep, hm]
  exact ⟨_, _, rfl⟩

theorem consume_fold_length (Q : String) (now : Int) (qs : Dict) :
    ∀ (chosen : List (List Char)) (restored : List Msg) (st : Broker),
      chosen.Nodup → (∀ c ∈ chosen, c ∈ alistKeys (st.waiting Q)) →
      (chosen.foldl (consumeStep Q now qs) (restored, st)).1.length
        = restored.length + chosen.length := by
  intro chosen
  induction chosen with
  | nil =>
      intro restored st _ _
      simp
  | cons c cs ih =>
      intro restored st hnd hmem
      have hc : c ∈ alistKeys (st.waiting Q) := hmem c (List.mem_cons_self _ _)
      obtain ⟨m, hm⟩ := Option.isSome_iff_exists.mp (alistGet_isSome_of_mem hc)
      obtain ⟨m', w, hstep⟩ := consumeStep_found restored hm
      rw [List.foldl_cons, hstep, ih (restored ++ [m']) _ hnd.of_cons ?hmem2]
      case hmem2 =>
        intro c' hc'
        show c' ∈ alistKeys (fnSet st.waiting Q (alistRemove (st.waiting Q) c) Q)
        rw [fnSet_same]
        have hne : c' ≠ c := by
          intro he
          subst he
          exact (List.nodup_cons.mp hnd).1 hc'
        exact mem_alistKeys_alistRemove (hmem c' (List.mem_cons_of_mem _ hc')) hne
      simp [List.length_append]
      omega


theorem consume_noClean (Q : String) (n : Nat) (now : Int) (st : Broker) :
    consume Q n false now st =
      .ok ((if (((pySorted (((get_settings Q st).2.waiting Q).map Prod.fst)).take
                (if n = 0 then 1 else n)).foldl
                (consumeStep Q now (get_settings Q st).1) ([], (get_settings Q st).2)).1.isEmpty
            then ConsumeRet.nothing
            else ConsumeRet.items (((pySorted (((get_settings Q st).2.waiting Q).map Prod.fst)).take
                (if n = 0 then 1 else n)).foldl
                (consumeStep Q now (get_settings Q st).1) ([], (get_settings Q st).2)).1),
           (((pySorted (((get_settings Q st).2.waiting Q).map Prod.fst)).take
                (if n = 0 then 1 else n)).foldl
                (consumeStep Q now (get_settings Q st).1) ([], (get_settings Q st).2)).2) := rfl

/-- C2 (amended): consume returns None exactly when no message was read
(the queue was empty), and otherwise the list of the messages read — also
for n == 1, when the list has one element; the single bare record form is
never returned.  The number of messages read is min(n, waiting), with a
falsy n treated as 1. -/
theorem consume_return_shape (Q : String) (n : Nat) (now : Int) (st : Broker)
    (hnd : ((st.waiting Q).map Prod.fst).Nodup) :
    ∃ ms st',
      consume Q n false now st =
        .ok ((if st.waiting Q = [] then ConsumeRet.nothing else ConsumeRet.items ms), st') ∧
      ms.length = min (if n = 0 then 1 else n) (st.waiting Q).length := by
  have hw1 : (get_settings Q st).2.waiting Q = st.waiting Q := by
    rw [get_settings_waiting]
  have hperm := pySorted_perm ((st.waiting Q).map Prod.fst)
  have hndS : (pySorted ((st.waiting Q).map Prod.fst)).Nodup := hperm.nodup_iff.mpr hnd
  have hchnd : ((pySorted ((st.waiting Q).map Prod.fst)).take (if n = 0 then 1 else n)).Nodup :=
    hndS.sublist (List.take_sublist _ _)
  have hchmem : ∀ c ∈ (pySorted ((st.waiting Q).map Prod.fst)).take (if n = 0 then 1 else n),
      c ∈ alistKeys ((get_settings Q st).2.waiting Q) := by
    rw [hw1]
    intro c hc
    exact hperm.mem_iff.mp (List.take_subset _ _ hc)
  have hfold := consume_fold_length Q now (get_settings Q st).1
      ((pySorted ((st.waiting Q).map Prod.fst)).take (if n = 0 then 1 else n))
      [] (get_settings Q st).2 hchnd hchmem
  have hchlen : (((pySorted ((st.waiting Q).map Prod.fst)).take (if n = 0 then 1 else n))).length
      = min (if n = 0 then 1 else n) (st.waiting Q).length := by
    rw [List.length_take, hperm.length_eq, List.length_map]
  by_cases hE : st.waiting Q = []
  · refine ⟨[], (get_settings Q st).2, ?_, ?_⟩
    · rw [consume_noClean, hw1, hE]
      simp [pySorted]
    · rw [hE]
      simp
  · refine ⟨(((pySorted ((st.waiting Q).map Prod.fst)).take (if n = 0 then 1 else n)).foldl
        (consumeStep Q now (get_settings Q st).1) ([], (get_settings Q st).2)).1,
      (((pySorted ((st.waiting Q).map Prod.fst)).take (if n = 0 then 1 else n)).foldl
        (consumeStep Q now (get_settings Q st).1) ([], (get_settings Q st).2)).2, ?_, ?_⟩
    · rw [consume_noClean, hw1, if_neg hE]
      have hlen1 : 1 ≤ (st.waiting Q).length := by
        rcases h : st.waiting Q with _ | ⟨e, es⟩
        · exact absurd h hE
        · simp
      have hnn : 1 ≤ (if n = 0 then 1 else n) := by
        by_cases h0 : n = 0
        · simp [h0]
        · simp [h0]
          omega
      have hlge : 1 ≤ (((pySorted ((st.waiting Q).map Prod.fst)).take (if n = 0 then 1 else n)).foldl
          (consumeStep Q now (get_settings Q st).1) ([], (get_settings Q st).2)).1.length := by
        rw [hfold, hchlen]
        have := Nat.le_min.mpr ⟨hnn, hlen1⟩
        omega
      have hie : (((pySorted ((st.waiting Q).map Prod.fst)).take (if n = 0 then 1 else n)).foldl
          (consumeStep Q now (get_settings Q st).1) ([], (get_settings Q st).2)).1.isEmpty = false := by
        rcases hr : (((pySorted ((st.waiting Q).map Prod.fst)).take (if n = 0 then 1 else n)).foldl
          (consumeStep Q now (get_settings Q st).1) ([], (get_settings Q st).2)).1 with _ | ⟨x, xs⟩
        · rw [hr] at hlge
          simp at hlge
        · rfl
      rw [hie]
      rfl
    · rw [hfold, hchlen]
      simp


/-- C2 (counterexample): consuming one message with n = 1 yields the list
form with a single element (and its leased filename), not the bare single
record the claim predicts for n == 1. -/
theorem consume_single_message_returns_list :
    (match consume "q" 1 false 1000 exStOne with
     | .ok p => some p.1
     | .error _ => none) =
      some (ConsumeRet.items [{ exMsg with filename := intStr 1600 ++ '.' :: exName }]) ∧
    ConsumeRet.items [{ exMsg with filename := intStr 1600 ++ '.' :: exName }] ≠
      ConsumeRet.single { exMsg with filename := intStr 1600 ++ '.' :: exName } := by decide

/-- Witness for the amended C2 at a concrete one-message queue and
n = 1: the result is the items form with exactly min(1, 1) = 1 element. -/
theorem consume_return_shape_witness :
    ((exStOne.waiting "q").map Prod.fst).Nodup ∧
    ∃ ms st', consume "q" 1 false 1000 exStOne =
        .ok ((if exStOne.waiting "q" = [] then ConsumeRet.nothing else ConsumeRet.items ms), st') ∧
      ms.length = min (if 1 = 0 then 1 else 1) (exStOne.waiting "q").length :=
  ⟨by decide, consume_return_shape "q" 1 1000 exStOne (by decide)⟩



/-- C8: for a message record built from all ten data-model fields,
deserializing the serialized form reproduces the record exactly — the
constructed dictionary holds exactly the keys of the empty message, so
updating the empty message with it restores every field in place. -/
theorem msg_roundtrip (vmsg vqueue vtimeout vid vprio vqn vfn vrq vrc vrl : JVal) :
    json2msg (msg2json (mkMsgDict vmsg vqueue vtimeout vid vprio vqn vfn vrq vrc vrl)) =
      mkMsgDict vmsg vqueue vtimeout vid vprio vqn vfn vrq vrc vrl := rfl

/-- C9 (counterexample): deserializing a serialized message extended with
an unknown key "extra" yields a different record than deserializing the
plain object, and re-serializing it carries the extra key — unknown fields
are retained, not ignored. -/
theorem json2msg_extra_key_not_ignored :
    json2msg (mkMsgDict JVal.null JVal.null JVal.null JVal.null JVal.null
        JVal.null JVal.null JVal.null JVal.null JVal.null ++ [("extra", JVal.int 7)]) ≠
      json2msg (mkMsgDict JVal.null JVal.null JVal.null JVal.null JVal.null
        JVal.null JVal.null JVal.null JVal.null JVal.null) ∧
    alistGet (msg2json (json2msg (mkMsgDict JVal.null JVal.null JVal.null JVal.null
        JVal.null JVal.null JVal.null JVal.null JVal.null JVal.null ++
        [("extra", JVal.int 7)]))) "extra" = some (JVal.int 7) := by decide

/-- C9 (amended): deserialization accepts unknown fields without error but
retains them: an extra key not among the message fields and not repeated
in the package becomes a trailing binding of the resulting record's
dictionary, and re-serialization carries it. -/
theorem json2msg_unknown_field_retained (pkg : Dict) (k : String) (v : JVal)
    (hk1 : k ∉ alistKeys initMsgDict) (hk2 : k ∉ alistKeys pkg) :
    json2msg (pkg ++ [(k, v)]) = json2msg pkg ++ [(k, v)] ∧
    alistGet (msg2json (json2msg (pkg ++ [(k, v)]))) k = some v := by
  have hk3 : k ∉ alistKeys (alistUpdate initMsgDict pkg) := by
    intro hmem
    rcases alistKeys_alistUpdate_subset _ _ _ hmem with h | h
    · exact hk1 h
    · exact hk2 h
  constructor
  · show alistUpdate initMsgDict (pkg ++ [(k, v)]) = alistUpdate initMsgDict pkg ++ [(k, v)]
    rw [alistUpdate_append initMsgDict pkg (k, v)]
    exact alistSet_append_of_notMem _ _ _ hk3
  · show alistGet (alistUpdate initMsgDict (pkg ++ [(k, v)])) k = some v
    rw [alistUpdate_append initMsgDict pkg (k, v)]
    exact alistGet_alistSet_self _ _ _

/-- Witness for the amended C9 with a concrete one-field package and the
unknown key "extra". -/
theorem json2msg_unknown_field_retained_witness :
    ("extra" ∉ alistKeys initMsgDict) ∧
    (json2msg ([("message", JVal.str "m")] ++ [("extra", JVal.int 7)]) =
      json2msg [("message", JVal.str "m")] ++ [("extra", JVal.int 7)] ∧
     alistGet (msg2json (json2msg ([("message", JVal.str "m")] ++
       [("extra", JVal.int 7)]))) "extra" = some (JVal.int 7)) :=
  ⟨by decide,
   json2msg_unknown_field_retained [("message", JVal.str "m")] "extra"
     (JVal.int 7) (by decide) (by decide)⟩


end Ddmq
